import Mathlib

/-!
Shallow embedding of the persistent memory store in `src/index.ts`
(an MCP memory server). Strings are Lean `String`s, JS `toLowerCase`
maps `Char.toLower` over the characters, JS `includes` is infix on the
character list, and
ISO-8601 timestamps are modelled by their `Date.getTime()` millisecond
value as a `Nat` (the code only ever compares timestamps through
`getTime()`). Optional JS arguments are `Option`s, and JS truthiness
tests on them (`if (args.id)` etc.) are modelled explicitly: an absent
value and the empty string are falsy, while an empty array is truthy.
JS `Array.prototype.sort` (stable) is modelled by `List.insertionSort`,
which is also stable. File I/O is abstracted: `loadMemories` takes the
outcome of the read attempt, and each mutating handler returns the
storage document that gets persisted together with a flag telling
whether a save happened.
-/

/-- Importance enum of a memory record: `low | medium | high`. -/
inductive Importance
  | low
  | medium
  | high
deriving DecidableEq, Repr

/-- Type enum of a memory record: `conversation | decision | preference | fact | other`. -/
inductive MemType
  | conversation
  | decision
  | preference
  | fact
  | other
deriving DecidableEq, Repr

/-- Memory record, as in the `Memory` interface of `src/index.ts`.
The `timestamp` field is the `getTime()` value of the ISO-8601 string. -/
structure Memory where
  id : String
  content : String
  tags : List String
  context : String
  timestamp : Nat
  session_id : Option String
  importance : Importance
  type : MemType
deriving DecidableEq, Repr

/-- Storage document, as in the `MemoryStorage` interface. -/
structure MemoryStorage where
  memories : List Memory
  version : String
  last_updated : Nat
deriving DecidableEq, Repr

/-- Outcome of attempting to read and parse the backing file. -/
inductive LoadOutcome
  | ok (storage : MemoryStorage)
  | failed
deriving DecidableEq, Repr

/-- Model of `loadMemories`: a successful read returns the parsed document;
any failure (missing or corrupt file) is caught and normalized to an empty
store stamped with the current time. -/
def loadMemories (outcome : LoadOutcome) (now : Nat) : MemoryStorage :=
  match outcome with
  | .ok st => st
  | .failed => { memories := [], version := "1.0.0", last_updated := now }

/-- Domain error raised by the handlers (`McpError` with `InvalidParams`). -/
inductive McpErr
  | invalidParams (msg : String)
deriving DecidableEq, Repr

deriving instance DecidableEq for Except

/-- JS truthiness of an optional string: absent and `""` are falsy. -/
def truthyStr : Option String → Bool
  | none => false
  | some s => !s.isEmpty

/-- JS truthiness of an optional boolean. -/
def truthyBool : Option Bool → Bool
  | none => false
  | some b => b

/-- JS `haystack.includes(needle)` on strings: needle occurs as a
contiguous substring. -/
def strIncludes (haystack needle : String) : Bool :=
  decide (needle.toList <:+: haystack.toList)

/-- JS `toLowerCase`, modelled as mapping `Char.toLower` over the
characters of the string. -/
def toLowerStr (s : String) : String :=
  ⟨s.data.map Char.toLower⟩

/-- Predicate of the `searchMemories` filter: the (already lowercased)
search term occurs in the lowercased content, context, or any lowercased tag. -/
def memMatchesQuery (searchTerm : String) (m : Memory) : Bool :=
  strIncludes (toLowerStr m.content) searchTerm ||
  strIncludes (toLowerStr m.context) searchTerm ||
  m.tags.any (fun tag => strIncludes (toLowerStr tag) searchTerm)

/-- Model of `searchMemories(memories, query?)`: a falsy query (absent or
empty) returns the list unchanged; otherwise keeps records matching the
lowercased query. -/
def searchMemories (memories : List Memory) (query : Option String) : List Memory :=
  match query with
  | none => memories
  | some q =>
    if q.isEmpty then memories
    else memories.filter (memMatchesQuery (toLowerStr q))

/-- Filter object passed to `filterMemories`; absent keys are `none`. -/
structure Filters where
  tags : Option (List String)
  session_id : Option String
  importance : Option Importance
  type : Option MemType
deriving DecidableEq, Repr

/-- Predicate of the `filterMemories` filter, one conjunct per truthy key.
An empty `tags` array is truthy in JS, so `tags := some []` rejects every
record; a supplied `session_id` of `""` is falsy and is skipped. -/
def memPassesFilters (f : Filters) (m : Memory) : Bool :=
  (match f.tags with
   | none => true
   | some ts => ts.any (fun tag => m.tags.contains tag)) &&
  (match f.session_id with
   | none => true
   | some s => if s.isEmpty then true else m.session_id == some s) &&
  (match f.importance with
   | none => true
   | some imp => m.importance == imp) &&
  (match f.type with
   | none => true
   | some ty => m.type == ty)

/-- Model of `filterMemories(memories, filters)`. -/
def filterMemories (memories : List Memory) (f : Filters) : List Memory :=
  memories.filter (memPassesFilters f)

/-- Ordering used by `recall`: the comparator `(a, b) => b.getTime() - a.getTime()`
sorts most recent first, so an earlier element has the larger timestamp. -/
def tsDescLe (a b : Memory) : Prop :=
  b.timestamp ≤ a.timestamp

instance : DecidableRel tsDescLe :=
  fun a b => Nat.decLe b.timestamp a.timestamp

instance : IsTotal Memory tsDescLe :=
  ⟨fun a b => Nat.le_total b.timestamp a.timestamp⟩

instance : IsTrans Memory tsDescLe :=
  ⟨fun _ _ _ hab hbc => Nat.le_trans hbc hab⟩

/-- Arguments of the `recall` tool after validation. -/
structure RecallArgs where
  query : Option String
  tags : Option (List String)
  session_id : Option String
  importance : Option Importance
  type : Option MemType
  limit : Option Nat
deriving DecidableEq, Repr

/-- Model of `handleRecall`: applies the query stage when the query is
truthy, then the filters, sorts most recent first (stable), and truncates
to `args.limit || 10` (so a 0 limit falls back to 10). Returns the list of
memories rendered in the textual response. -/
def handleRecall (args : RecallArgs) (storage : MemoryStorage) : List Memory :=
  let memories := storage.memories
  let memories := if truthyStr args.query then searchMemories memories args.query else memories
  let memories := filterMemories memories
    { tags := args.tags, session_id := args.session_id,
      importance := args.importance, type := args.type }
  let sorted := List.insertionSort tsDescLe memories
  let limit : Nat := match args.limit with
    | none => 10
    | some n => if n = 0 then 10 else n
  sorted.take limit

/-- Arguments of the `modify` tool after validation. -/
structure ModifyArgs where
  id : String
  content : Option String
  tags : Option (List String)
  context : Option String
  importance : Option Importance
  type : Option MemType
deriving DecidableEq, Repr

/-- Field updates of `handleModify` applied to the found record: each
supplied field replaces the old value, each absent field is kept. -/
def applyModify (args : ModifyArgs) (m : Memory) : Memory :=
  { m with
    content := args.content.getD m.content,
    tags := args.tags.getD m.tags,
    context := args.context.getD m.context,
    importance := args.importance.getD m.importance,
    type := args.type.getD m.type }

/-- Model of `findIndex` followed by in-place mutation: walks the list and
updates the first record whose id matches, returning the original record,
the updated record, and the updated list. -/
def modifyFirst (args : ModifyArgs) : List Memory → Option (Memory × Memory × List Memory)
  | [] => none
  | m :: rest =>
    if m.id = args.id then
      some (m, applyModify args m, applyModify args m :: rest)
    else
      match modifyFirst args rest with
      | none => none
      | some (orig, upd, rest2) => some (orig, upd, m :: rest2)

/-- Model of `handleModify`: fails with `InvalidParams` when no record has
the given id, otherwise updates the first matching record in place,
persists (stamping `last_updated`), and returns the persisted storage with
the before and after snapshots. -/
def handleModify (args : ModifyArgs) (storage : MemoryStorage) (now : Nat) :
    Except McpErr (MemoryStorage × Memory × Memory) :=
  match modifyFirst args storage.memories with
  | none => .error (.invalidParams ("Memory with ID " ++ args.id ++ " not found"))
  | some (orig, upd, mems) =>
    .ok ({ storage with memories := mems, last_updated := now }, orig, upd)

/-- Arguments of the `erase` tool after validation. -/
structure EraseArgs where
  id : Option String
  query : Option String
  tags : Option (List String)
  session_id : Option String
  confirm : Option Bool
deriving DecidableEq, Repr

/-- Outcome reported by `handleErase`. -/
inductive EraseResult
  | deletedById (id : String)
  | preview (wouldDelete : List Memory)
  | bulkDeleted (count : Nat)
deriving DecidableEq, Repr

/-- Matching set of the bulk-erase paths: the query stage (guarded by JS
truthiness of `args.query`) followed by the tag and session filters; the
importance and type keys are not passed. -/
def eraseMatches (args : EraseArgs) (memories : List Memory) : List Memory :=
  let ms := if truthyStr args.query then searchMemories memories args.query else memories
  filterMemories ms
    { tags := args.tags, session_id := args.session_id, importance := none, type := none }

/-- Bulk branch of `handleErase`: without a truthy `confirm` it returns a
preview and touches nothing; with `confirm` it deletes every record whose
id is among the ids of the matching set and persists. -/
def eraseBulk (args : EraseArgs) (storage : MemoryStorage) (now : Nat) :
    Except McpErr (MemoryStorage × Bool × EraseResult) :=
  if !truthyBool args.confirm then
    .ok (storage, false, .preview (eraseMatches args storage.memories))
  else
    let memoriesToDelete := eraseMatches args storage.memories
    let deletedIds := memoriesToDelete.map Memory.id
    let newMemories := storage.memories.filter (fun m => !deletedIds.contains m.id)
    .ok ({ storage with memories := newMemories, last_updated := now },
         true, .bulkDeleted deletedIds.length)

/-- By-id branch of `handleErase`: removes every record with the given id,
fails with `InvalidParams` when the count did not change, otherwise persists. -/
def eraseById (i : String) (storage : MemoryStorage) (now : Nat) :
    Except McpErr (MemoryStorage × Bool × EraseResult) :=
  let initialCount := storage.memories.length
  let newMemories := storage.memories.filter (fun m => !(m.id == i))
  if newMemories.length = initialCount then
    .error (.invalidParams ("Memory with ID " ++ i ++ " not found"))
  else
    .ok ({ storage with memories := newMemories, last_updated := now },
         true, .deletedById i)

/-- Model of `handleErase`: a truthy `args.id` (supplied and non-empty)
takes the by-id branch, anything else the bulk branch. The `Bool` in the
result tells whether `saveMemories` ran; the returned storage is the
persisted document (unchanged when no save happened). -/
def handleErase (args : EraseArgs) (storage : MemoryStorage) (now : Nat) :
    Except McpErr (MemoryStorage × Bool × EraseResult) :=
  match args.id with
  | some i => if i.isEmpty then eraseBulk args storage now else eraseById i storage now
  | none => eraseBulk args storage now

/-- Specification-side reading of a case-insensitive substring match:
the lowercased needle occurs contiguously inside the lowercased haystack. -/
def ciContains (hay needle : String) : Prop :=
  (toLowerStr needle).toList <:+: (toLowerStr hay).toList

/-- Combined predicate of the bulk-erase matching set: the record passes
the tag and session filters and, when a non-empty query is supplied,
matches it. -/
def eraseMatchPred (args : EraseArgs) (m : Memory) : Bool :=
  memPassesFilters ⟨args.tags, args.session_id, none, none⟩ m &&
  (match args.query with
   | none => true
   | some q => if q.isEmpty then true else memMatchesQuery (toLowerStr q) m)

/-- Concrete record used in witnesses: recent, high-importance preference. -/
def recNewer : Memory :=
  ⟨"idA", "User prefers TypeScript", ["pref"], "", 200, none, .high, .preference⟩

/-- Concrete record used in witnesses: older, tagged `["a", "b"]`. -/
def recOlder : Memory :=
  ⟨"idB", "Y prefers dogs", ["a", "b"], "", 100, none, .low, .other⟩

/-- Concrete two-record store used in witnesses, older record first. -/
def storeTwo : MemoryStorage :=
  ⟨[recOlder, recNewer], "1.0.0", 0⟩

/-! ### Helper lemmas -/

theorem length_filter_add_length_filter_not {α : Type} (p : α → Bool) (l : List α) :
    (l.filter p).length + (l.filter (fun a => !p a)).length = l.length := by
  induction l with
  | nil => rfl
  | cons x xs ih =>
    by_cases h : p x = true <;> simp [List.filter_cons, h] <;> omega

theorem filterMemories_noFilters (l : List Memory) :
    filterMemories l ⟨none, none, none, none⟩ = l := by
  rw [filterMemories, List.filter_eq_self]
  intro m _
  rfl

theorem filter_not_contains_self (l : List Memory) :
    l.filter (fun m => !(l.map Memory.id).contains m.id) = [] := by
  rw [List.filter_eq_nil_iff]
  intro m hm
  simp [List.mem_map]
  exact ⟨m, hm, rfl⟩

theorem searchMemories_nil (q : Option String) : searchMemories [] q = [] := by
  cases q with
  | none => rfl
  | some s =>
    unfold searchMemories
    split <;> simp

theorem filterMemories_emptyTags (l : List Memory) (s : Option String)
    (imp : Option Importance) (ty : Option MemType) :
    filterMemories l ⟨some [], s, imp, ty⟩ = [] := by
  rw [filterMemories, List.filter_eq_nil_iff]
  intro m _
  simp [memPassesFilters]

/-! ### Claim theorems -/

/-- C2: a bulk erase with no id, no query, no tags, no session filter and
`confirm = true` matches every record and empties the persisted collection,
reporting the full count as deleted. -/
theorem erase_deleteAll_C2 (storage : MemoryStorage) (now : Nat) :
    handleErase ⟨none, none, none, none, some true⟩ storage now =
      .ok ({ storage with memories := [], last_updated := now }, true,
        .bulkDeleted storage.memories.length) := by
  show eraseBulk _ _ _ = _
  unfold eraseBulk
  simp only [truthyBool, Bool.not_true, Bool.false_eq_true, if_false]
  unfold eraseMatches
  simp only [truthyStr, Bool.false_eq_true, if_false, filterMemories_noFilters,
    filter_not_contains_self, List.length_map]

/-- C9: a supplied-but-empty tags array is truthy in JS, so the tag filter
rejects every record: recall returns nothing and a confirmed bulk erase
with `tags = []` deletes zero records, leaving the memories intact. -/
theorem emptyTags_C9 (storage : MemoryStorage) :
    (∀ q s imp ty lim, handleRecall ⟨q, some [], s, imp, ty, lim⟩ storage = []) ∧
    (∀ q s now, handleErase ⟨none, q, some [], s, some true⟩ storage now =
      .ok ({ storage with last_updated := now }, true, .bulkDeleted 0)) := by
  constructor
  · intro q s imp ty lim
    unfold handleRecall
    simp [filterMemories_emptyTags]
  · intro q s now
    show eraseBulk _ _ _ = _
    unfold eraseBulk
    simp only [truthyBool, Bool.not_true, Bool.false_eq_true, if_false]
    unfold eraseMatches
    simp [filterMemories_emptyTags]

/-- C8: a failed load (missing or corrupt file) is not surfaced as an
error: it is normalized to an empty store with empty memories, a
successful load passes the document through, and operations proceed
against the empty state (recall finds nothing, a confirmed bulk erase
deletes zero records). -/
theorem load_C8 (now : Nat) :
    loadMemories .failed now = { memories := [], version := "1.0.0", last_updated := now } ∧
    (∀ st, loadMemories (.ok st) now = st) ∧
    (∀ args, handleRecall args (loadMemories .failed now) = []) ∧
    (∀ q t s now2, handleErase ⟨none, q, t, s, some true⟩ (loadMemories .failed now) now2 =
      .ok ({ memories := [], version := "1.0.0", last_updated := now2 }, true,
        .bulkDeleted 0)) := by
  refine ⟨rfl, fun st => rfl, ?_, ?_⟩
  · intro args
    unfold handleRecall loadMemories
    simp [searchMemories_nil, filterMemories]
  · intro q t s now2
    show eraseBulk _ _ _ = _
    unfold eraseBulk
    simp only [truthyBool, Bool.not_true, Bool.false_eq_true, if_false]
    unfold eraseMatches loadMemories
    simp [searchMemories_nil, filterMemories]

/-- C10: a supplied non-empty id takes the delete-by-id branch
unconditionally: the query, tags, session and confirm arguments do not
influence the outcome, no confirmation is needed, and the result is either
the NotFound error or a successful single-id deletion. -/
theorem erase_idPath_C10 (i : String) (storage : MemoryStorage) (now : Nat)
    (q q2 : Option String) (t t2 : Option (List String)) (s s2 : Option String)
    (c c2 : Option Bool) (hne : i.isEmpty = false) :
    handleErase ⟨some i, q, t, s, c⟩ storage now =
      handleErase ⟨some i, q2, t2, s2, c2⟩ storage now ∧
    (handleErase ⟨some i, q, t, s, c⟩ storage now =
        .error (.invalidParams ("Memory with ID " ++ i ++ " not found")) ∨
      ∃ st2, handleErase ⟨some i, q, t, s, c⟩ storage now =
        .ok (st2, true, .deletedById i)) := by
  constructor
  · simp [handleErase, hne]
  · simp only [handleErase, hne, Bool.false_eq_true, if_false]
    by_cases hlen :
        (storage.memories.filter (fun m => !(m.id == i))).length = storage.memories.length
    · exact .inl (by simp [eraseById, hlen])
    · exact .inr ⟨{ storage with memories := storage.memories.filter (fun m => !(m.id == i)), last_updated := now }, by simp [eraseById, hlen]⟩

/-- Witness for C10 at a concrete store where the id exists: both the
independence equation and the by-id outcome are realized. -/
theorem erase_idPath_C10_witness :
    handleErase ⟨some "idA", some "zzz", some ["q"], some "sess", some false⟩ storeTwo 7 =
      handleErase ⟨some "idA", none, none, none, none⟩ storeTwo 7 ∧
    (handleErase ⟨some "idA", some "zzz", some ["q"], some "sess", some false⟩ storeTwo 7 =
        .error (.invalidParams ("Memory with ID " ++ "idA" ++ " not found")) ∨
      ∃ st2, handleErase ⟨some "idA", some "zzz", some ["q"], some "sess", some false⟩ storeTwo 7 =
        .ok (st2, true, .deletedById "idA")) :=
  erase_idPath_C10 "idA" storeTwo 7 (some "zzz") none (some ["q"]) none (some "sess") none
    (some false) none (by decide)

/-- C3: `recall` output is sorted by timestamp descending and truncated to
the limit, which defaults to 10 and, within the documented 1..100 range,
bounds the result count; on the concrete two-record store, `limit = 1`
returns exactly the more recent record. -/
theorem recall_sortLimit_C3 (args : RecallArgs) (storage : MemoryStorage) :
    List.Sorted tsDescLe (handleRecall args storage) ∧
    (args.limit = none → (handleRecall args storage).length ≤ 10) ∧
    (∀ n, args.limit = some n → 1 ≤ n → n ≤ 100 →
      (handleRecall args storage).length ≤ n) ∧
    handleRecall ⟨none, none, none, none, none, some 1⟩ storeTwo = [recNewer] := by
  refine ⟨?_, ?_, ?_, by decide⟩
  · unfold handleRecall
    exact List.Pairwise.sublist (List.take_sublist _ _) (List.sorted_insertionSort tsDescLe _)
  · intro h
    simp only [handleRecall, h]
    exact List.length_take_le _ _
  · intro n hn h1 _
    simp only [handleRecall, hn]
    have hne : (if n = 0 then 10 else n) = n := if_neg (by omega)
    rw [hne]
    exact List.length_take_le _ _

/-- Witness for C3: the limit bound applied at limit 5 on the concrete store. -/
theorem recall_sortLimit_C3_witness :
    (handleRecall ⟨none, none, none, none, none, some 5⟩ storeTwo).length ≤ 5 :=
  (recall_sortLimit_C3 ⟨none, none, none, none, none, some 5⟩ storeTwo).2.2.1 5 rfl
    (by decide) (by decide)

/-- C7: the tag filter is match-any: with a non-empty tags filter supplied
(and no other filter keys), a record passes exactly when it carries at
least one of the requested tags; in particular a record tagged
`["a", "b"]` passes the filter `["b", "z"]`. -/
theorem filter_tags_C7 (memories : List Memory) (ts : List String) (m : Memory)
    (_hne : ts ≠ []) :
    (m ∈ filterMemories memories ⟨some ts, none, none, none⟩ ↔
      m ∈ memories ∧ ∃ tag ∈ ts, tag ∈ m.tags) ∧
    recOlder ∈ filterMemories [recOlder] ⟨some ["b", "z"], none, none, none⟩ := by
  refine ⟨?_, by decide⟩
  rw [filterMemories, List.mem_filter]
  simp [memPassesFilters]

/-- Witness for C7: the concrete match-any example. -/
theorem filter_tags_C7_witness :
    recOlder ∈ filterMemories [recOlder] ⟨some ["b", "z"], none, none, none⟩ :=
  (filter_tags_C7 [recOlder] ["b", "z"] recOlder (by decide)).2

/-- C5: with a query supplied, the query stage keeps a record exactly when
its content, its context, or one of its tags contains the query as a
case-insensitive substring; in particular, the query `"typescript"`
matches a record whose content is `"User prefers TypeScript"`. -/
theorem search_query_C5 (memories : List Memory) (q : String) (m : Memory) :
    (m ∈ searchMemories memories (some q) ↔
      m ∈ memories ∧
        (ciContains m.content q ∨ ciContains m.context q ∨ ∃ tag ∈ m.tags, ciContains tag q)) ∧
    recNewer ∈ searchMemories [recNewer] (some "typescript") := by
  refine ⟨?_, by decide⟩
  by_cases hq : q.isEmpty
  · have hq0 : q = "" := (String.isEmpty_iff q).mp hq
    subst hq0
    simp only [searchMemories, if_pos hq]
    have hnil : ∀ hay : String, ciContains hay "" := by
      intro hay
      show (toLowerStr "").toList <:+: _
      exact List.nil_infix
    simp [hnil]
  · simp only [searchMemories, if_neg hq, List.mem_filter]
    simp [memMatchesQuery, strIncludes, ciContains, List.any_eq_true, or_assoc]

theorem modifyFirst_eq_none_iff (args : ModifyArgs) (l : List Memory) :
    modifyFirst args l = none ↔ ∀ m ∈ l, m.id ≠ args.id := by
  induction l with
  | nil => simp [modifyFirst]
  | cons x xs ih =>
    by_cases hx : x.id = args.id
    · refine iff_of_false (by simp [modifyFirst, hx]) ?_
      intro h
      exact h x (List.mem_cons_self x xs) hx
    · cases hr : modifyFirst args xs with
      | none =>
        refine iff_of_true (by simp [modifyFirst, hx, hr]) ?_
        intro m hm
        rcases List.mem_cons.mp hm with rfl | hm2
        · exact hx
        · exact (ih.mp hr) m hm2
      | some trip =>
        obtain ⟨o, u, rest⟩ := trip
        refine iff_of_false (by simp [modifyFirst, hx, hr]) ?_
        intro h
        have hn : modifyFirst args xs = none :=
          ih.mpr (fun m hm => h m (List.mem_cons_of_mem x hm))
        rw [hr] at hn
        exact Option.noConfusion hn

theorem modifyFirst_eq_some (args : ModifyArgs) (l : List Memory) (orig upd : Memory)
    (l2 : List Memory) (h : modifyFirst args l = some (orig, upd, l2)) :
    orig.id = args.id ∧ upd = applyModify args orig ∧
    ∃ pre post, l = pre ++ orig :: post ∧ l2 = pre ++ upd :: post := by
  induction l generalizing l2 with
  | nil => simp [modifyFirst] at h
  | cons x xs ih =>
    by_cases hx : x.id = args.id
    · rw [modifyFirst, if_pos hx] at h
      obtain ⟨rfl, rfl, rfl⟩ :
          x = orig ∧ applyModify args x = upd ∧ applyModify args x :: xs = l2 := by
        have h2 := Option.some.inj h
        exact ⟨congrArg (fun t => t.1) h2, congrArg (fun t => t.2.1) h2,
          congrArg (fun t => t.2.2) h2⟩
      exact ⟨hx, rfl, [], xs, rfl, rfl⟩
    · rw [modifyFirst, if_neg hx] at h
      cases hr : modifyFirst args xs with
      | none => rw [hr] at h; exact Option.noConfusion h
      | some trip =>
        obtain ⟨o, u, rest⟩ := trip
        rw [hr] at h
        obtain ⟨rfl, rfl, rfl⟩ : o = orig ∧ u = upd ∧ x :: rest = l2 := by
          have h2 := Option.some.inj h
          exact ⟨congrArg (fun t => t.1) h2, congrArg (fun t => t.2.1) h2,
            congrArg (fun t => t.2.2) h2⟩
        obtain ⟨h1, h2, pre, post, hp, hq⟩ := ih rest hr
        exact ⟨h1, h2, x :: pre, post, by rw [hp]; rfl, by rw [hq]; rfl⟩

/-- C4: `modify` fails with the NotFound error when no record has the
given id; on success, exactly the supplied fields are replaced on the
first matching record, all unsupplied fields (id, timestamp and
session_id can never be supplied) are identical to before, and every other
record of the collection is untouched. -/
theorem modify_C4 (args : ModifyArgs) (storage : MemoryStorage) (now : Nat) :
    ((∀ m ∈ storage.memories, m.id ≠ args.id) →
      handleModify args storage now =
        .error (.invalidParams ("Memory with ID " ++ args.id ++ " not found"))) ∧
    (∀ st2 orig upd, handleModify args storage now = .ok (st2, orig, upd) →
      orig.id = args.id ∧
      upd.id = orig.id ∧ upd.timestamp = orig.timestamp ∧ upd.session_id = orig.session_id ∧
      upd.content = args.content.getD orig.content ∧
      upd.tags = args.tags.getD orig.tags ∧
      upd.context = args.context.getD orig.context ∧
      upd.importance = args.importance.getD orig.importance ∧
      upd.type = args.type.getD orig.type ∧
      st2.version = storage.version ∧ st2.last_updated = now ∧
      ∃ pre post, storage.memories = pre ++ orig :: post ∧
        st2.memories = pre ++ upd :: post) := by
  constructor
  · intro hall
    unfold handleModify
    rw [(modifyFirst_eq_none_iff args storage.memories).mpr hall]
  · intro st2 orig upd h
    unfold handleModify at h
    cases hm : modifyFirst args storage.memories with
    | none =>
      rw [hm] at h
      exact Except.noConfusion h
    | some trip =>
      obtain ⟨o, u, mems⟩ := trip
      rw [hm] at h
      have h2 := Except.ok.inj h
      obtain ⟨hst, ho, hu⟩ :
          ({ storage with memories := mems, last_updated := now } : MemoryStorage) = st2 ∧
            o = orig ∧ u = upd :=
        ⟨congrArg (fun t => t.1) h2, congrArg (fun t => t.2.1) h2,
          congrArg (fun t => t.2.2) h2⟩
      subst ho
      subst hu
      subst hst
      obtain ⟨hid, hupd, pre, post, hp, hq⟩ :=
        modifyFirst_eq_some args storage.memories _ _ _ hm
      subst hupd
      exact ⟨hid, rfl, rfl, rfl, rfl, rfl, rfl, rfl, rfl, rfl, rfl, pre, post, hp, hq⟩

/-- Witness for C4: updating only the content of the newer record in the
concrete store keeps its position and leaves the other record untouched. -/
theorem modify_C4_witness :
    ∃ pre post, storeTwo.memories = pre ++ recNewer :: post ∧
      (⟨[recOlder, ⟨"idA", "new", ["pref"], "", 200, none, .high, .preference⟩],
        "1.0.0", 9⟩ : MemoryStorage).memories =
        pre ++ (⟨"idA", "new", ["pref"], "", 200, none, .high, .preference⟩ : Memory) :: post :=
  ((modify_C4 ⟨"idA", some "new", none, none, none, none⟩ storeTwo 9).2
    ⟨[recOlder, ⟨"idA", "new", ["pref"], "", 200, none, .high, .preference⟩], "1.0.0", 9⟩
    recNewer ⟨"idA", "new", ["pref"], "", 200, none, .high, .preference⟩
    (by decide)).2.2.2.2.2.2.2.2.2.2.2

/-- C6: under the store invariant of unique ids, `erase` with a supplied
non-empty id fails with the NotFound error and changes nothing when no
record has the id, and otherwise removes exactly the single matching
record and persists. -/
theorem erase_byId_C6 (storage : MemoryStorage) (i : String) (q : Option String)
    (t : Option (List String)) (s : Option String) (c : Option Bool) (now : Nat)
    (hne : i.isEmpty = false)
    (hids : (storage.memories.map Memory.id).Nodup) :
    ((∀ m ∈ storage.memories, m.id ≠ i) →
      handleErase ⟨some i, q, t, s, c⟩ storage now =
        .error (.invalidParams ("Memory with ID " ++ i ++ " not found"))) ∧
    (∀ m, m ∈ storage.memories → m.id = i →
      ∃ pre post, storage.memories = pre ++ m :: post ∧
        handleErase ⟨some i, q, t, s, c⟩ storage now =
          .ok ({ storage with memories := pre ++ post, last_updated := now }, true,
            .deletedById i)) := by
  have hpath : handleErase ⟨some i, q, t, s, c⟩ storage now = eraseById i storage now := by
    simp [handleErase, hne]
  constructor
  · intro hall
    rw [hpath]
    unfold eraseById
    have hfil : storage.memories.filter (fun m => !(m.id == i)) = storage.memories := by
      rw [List.filter_eq_self]
      intro m hm
      simpa using hall m hm
    simp [hfil]
  · intro m hm hmi
    obtain ⟨pre, post, hsplit⟩ := List.append_of_mem hm
    refine ⟨pre, post, hsplit, ?_⟩
    rw [hpath]
    unfold eraseById
    rw [hsplit] at hids
    have hpp : (∀ x ∈ pre, x.id ≠ i) ∧ (∀ x ∈ post, x.id ≠ i) := by
      simp [List.map_append, List.nodup_append, List.nodup_cons, List.mem_map] at hids
      exact ⟨fun x hx h => hids.2.2.1 x hx (h.trans hmi.symm),
        fun x hx h => hids.2.1.1 x hx (h.trans hmi.symm)⟩
    have hfil : storage.memories.filter (fun x => !(x.id == i)) = pre ++ post := by
      rw [hsplit, List.filter_append, List.filter_cons]
      have h1 : pre.filter (fun x => !(x.id == i)) = pre := by
        rw [List.filter_eq_self]
        intro x hx
        simpa using hpp.1 x hx
      have h2 : post.filter (fun x => !(x.id == i)) = post := by
        rw [List.filter_eq_self]
        intro x hx
        simpa using hpp.2 x hx
      simp [h1, h2, hmi]
    have hlen : ¬ pre.length + post.length = storage.memories.length := by
      rw [hsplit]
      simp [List.length_append]
    simp [hfil, hlen]

/-- Witness for C6: deleting the id of the newer record from the concrete
store removes exactly that record. -/
theorem erase_byId_C6_witness :
    ∃ pre post, storeTwo.memories = pre ++ recNewer :: post ∧
      handleErase ⟨some "idA", none, none, none, none⟩ storeTwo 7 =
        .ok ({ storeTwo with memories := pre ++ post, last_updated := 7 }, true,
          .deletedById "idA") :=
  (erase_byId_C6 storeTwo "idA" none none none none 7 (by decide) (by decide)).2
    recNewer (by decide) rfl

theorem eraseMatches_eq_filter (args : EraseArgs) (l : List Memory) :
    eraseMatches args l = l.filter (eraseMatchPred args) := by
  unfold eraseMatches eraseMatchPred filterMemories truthyStr
  cases hq : args.query with
  | none => simp
  | some q =>
    by_cases he : q.isEmpty
    · simp [he, searchMemories]
    · simp [he, searchMemories, List.filter_filter]

theorem filter_not_mem_matched (l : List Memory) (p : Memory → Bool)
    (hids : (l.map Memory.id).Nodup) :
    l.filter (fun m => !((l.filter p).map Memory.id).contains m.id) =
      l.filter (fun m => !p m) := by
  apply List.filter_congr
  intro m hm
  have hcont : ((l.filter p).map Memory.id).contains m.id = p m := by
    by_cases hp : p m = true
    · rw [hp]
      simp
      exact ⟨m, ⟨hm, hp⟩, rfl⟩
    · have hb : p m = false := by
        cases hpm : p m
        · rfl
        · exact absurd hpm hp
      rw [hb]
      simp
      intro d hdl hdp hdid
      have hdm : d = m := List.inj_on_of_nodup_map hids hdl hm hdid
      rw [hdm] at hdp
      exact hp hdp
  rw [hcont]

/-- C1: under the store invariant of unique ids, a bulk erase without
confirmation does not mutate the persisted storage (no save happens and
the document is returned unchanged), and the preview it reports has
exactly as many records as a subsequent confirmed call with the same
query, tags and session filters would remove. -/
theorem erase_preview_C1 (q : Option String) (t : Option (List String)) (s : Option String)
    (c : Option Bool) (storage : MemoryStorage) (now now2 : Nat)
    (hc : truthyBool c = false)
    (hids : (storage.memories.map Memory.id).Nodup) :
    ∃ preview newMems,
      handleErase ⟨none, q, t, s, c⟩ storage now = .ok (storage, false, .preview preview) ∧
      handleErase ⟨none, q, t, s, some true⟩ storage now2 =
        .ok ({ storage with memories := newMems, last_updated := now2 }, true,
          .bulkDeleted preview.length) ∧
      newMems.length + preview.length = storage.memories.length := by
  refine ⟨eraseMatches ⟨none, q, t, s, c⟩ storage.memories,
    storage.memories.filter (fun m => !eraseMatchPred ⟨none, q, t, s, some true⟩ m),
    ?_, ?_, ?_⟩
  · show eraseBulk _ _ _ = _
    simp [eraseBulk, hc]
  · show eraseBulk _ _ _ = _
    unfold eraseBulk
    simp only [truthyBool, Bool.not_true, Bool.false_eq_true, if_false]
    rw [eraseMatches_eq_filter, filter_not_mem_matched _ _ hids]
    rw [eraseMatches_eq_filter, List.length_map]
    rfl
  · rw [eraseMatches_eq_filter]
    have hpred : eraseMatchPred ⟨none, q, t, s, c⟩ = eraseMatchPred ⟨none, q, t, s, some true⟩ :=
      rfl
    rw [hpred]
    have h := length_filter_add_length_filter_not (eraseMatchPred ⟨none, q, t, s, some true⟩)
      storage.memories
    omega

/-- Witness for C1: on the concrete store with no filters, the preview
lists both records and the confirmed call removes both. -/
theorem erase_preview_C1_witness :
    ∃ preview newMems,
      handleErase ⟨none, none, none, none, none⟩ storeTwo 7 =
        .ok (storeTwo, false, .preview preview) ∧
      handleErase ⟨none, none, none, none, some true⟩ storeTwo 8 =
        .ok ({ storeTwo with memories := newMems, last_updated := 8 }, true,
          .bulkDeleted preview.length) ∧
      newMems.length + preview.length = storeTwo.memories.length :=
  erase_preview_C1 none none none none storeTwo 7 8 (by decide) (by decide)

/-- Witness for C5: the concrete case-insensitive match. -/
theorem search_query_C5_witness :
    recNewer ∈ searchMemories [recNewer] (some "typescript") :=
  (search_query_C5 [recNewer] "typescript" recNewer).2
